import Mathlib

/-
Verification of the VST Vensim-automation library.

This file gives a shallow embedding of the parts of `vst.py` (the `Script`
class and the two process supervisors `run_vengine_script` /
`run_vensim_script`) and `vst_text.py` (the output readers and health
checks), and proves properties of the embedded definitions.

Modelling conventions:
* Python strings are `List Char` (named `Str`); Python's `in`, `endswith`,
  `split`, `replace`, `strip` are modelled with the corresponding list
  operations.
* Python floats produced by parsing decimal/scientific literals are
  modelled exactly as decimal numbers `Dec` (an integer mantissa times a
  power of ten), with `Dec.toRat` giving their rational value.  Special
  float values (`inf`, `nan`) appearing as defaults in `parse_outval`
  are modelled by the `PyVal` wrapper, whose comparison operators follow
  IEEE behaviour (`nan` compares false with everything).
* Fallible Python code (exceptions such as `IndexError`, `ValueError`,
  `FileNotFoundError`) is modelled with `Option`: `none` means the Python
  code raises.
* File contents are passed explicitly as `List Str` (the list of lines);
  log side effects are either dropped or recorded as explicit action
  values where a claim is about logging.
-/

/-- Python strings, modelled as lists of characters. -/
abbrev Str := List Char

/-- Numeric value of a decimal digit character. -/
def digitVal (c : Char) : Nat := c.toNat - '0'.toNat

/-- Value of a string of decimal digits (most significant first). -/
def digitsToNat (ds : Str) : Nat := ds.foldl (fun n c => 10 * n + digitVal c) 0

/-- An exact decimal number `mant * 10 ^ exp`; the model of Python floats
obtained by `float()` on decimal/scientific literals. -/
structure Dec where
  mant : Int
  exp : Int
deriving DecidableEq

/-- The mantissa of `a` rescaled to exponent `m` (meaningful for `m ≤ a.exp`). -/
def Dec.scaleTo (a : Dec) (m : Int) : Int := a.mant * 10 ^ (a.exp - m).toNat

/-- Strict less-than on decimals (model of float `<`). -/
def Dec.blt (a b : Dec) : Bool :=
  let m := min a.exp b.exp
  decide (a.scaleTo m < b.scaleTo m)

/-- Less-or-equal on decimals (model of float `<=`). -/
def Dec.ble (a b : Dec) : Bool :=
  let m := min a.exp b.exp
  decide (a.scaleTo m ≤ b.scaleTo m)

/-- Equality test on decimals by value (model of float `==`). -/
def Dec.beq (a b : Dec) : Bool :=
  let m := min a.exp b.exp
  decide (a.scaleTo m = b.scaleTo m)

/-- Exact subtraction of decimals (model of float subtraction on decimals). -/
def Dec.sub (a b : Dec) : Dec :=
  let m := min a.exp b.exp
  ⟨a.scaleTo m - b.scaleTo m, m⟩

/-- Absolute value of a decimal (model of Python `abs`). -/
def Dec.dabs (a : Dec) : Dec := ⟨|a.mant|, a.exp⟩

/-- Rational value of a decimal. -/
def Dec.toRat (a : Dec) : ℚ := (a.mant : ℚ) * (10 : ℚ) ^ a.exp

/-- A Python float value: a finite decimal, an infinity, or `nan`
(`parse_outval` initialises its output with `-np.inf`, `np.nan`, `np.inf`). -/
inductive PyVal where
  | fin (d : Dec)
  | negInf
  | posInf
  | nan
deriving DecidableEq

/-- Strict less-than on Python float values; `nan` compares false with
everything, as in IEEE/Python. -/
def PyVal.ltB : PyVal → PyVal → Bool
  | .nan, _ => false
  | _, .nan => false
  | .negInf, .negInf => false
  | .negInf, _ => true
  | _, .negInf => false
  | _, .posInf => true
  | .posInf, _ => false
  | .fin a, .fin b => Dec.blt a b

/-- Equality test on Python float values; `nan` is unequal to everything. -/
def PyVal.eqB : PyVal → PyVal → Bool
  | .nan, _ => false
  | _, .nan => false
  | .negInf, .negInf => true
  | .posInf, .posInf => true
  | .fin a, .fin b => Dec.beq a b
  | _, _ => false

/- ### The numeric-token scanner

`read_payoff` extracts numbers with the regex
`-?(?:0|[1-9]\d*)(?:\.\d*)?(?:[eE][+\-]?\d+)?` via `regex.findall`.
The following functions model that regex's matching behaviour: at a given
position a match has an optional minus sign, a mandatory integer part
(`0`, or a nonzero digit followed by greedily-taken digits), an optional
greedy fraction part, and an optional exponent part that is only taken
when at least one exponent digit follows. -/

/-- Match the integer part `0|[1-9]\d*` at the head of `s`; returns the
matched characters and the remainder. -/
def matchIntPart : Str → Option (Str × Str)
  | c :: rest =>
      if c = '0' then some (['0'], rest)
      else if c.isDigit then
        some (c :: rest.takeWhile Char.isDigit, rest.dropWhile Char.isDigit)
      else none
  | [] => none

/-- Match the optional fraction part `(?:\.\d*)?` at the head of `s`. -/
def matchFrac : Str → Str × Str
  | c :: rest =>
      if c = '.' then ('.' :: rest.takeWhile Char.isDigit, rest.dropWhile Char.isDigit)
      else ([], c :: rest)
  | [] => ([], [])

/-- Match the optional exponent part `(?:[eE][+\-]?\d+)?` at the head of
`s`; nothing is consumed unless at least one exponent digit is present. -/
def matchExp (s : Str) : Str × Str :=
  match s with
  | c :: rest =>
      if c = 'e' ∨ c = 'E' then
        let sr : Str × Str :=
          match rest with
          | d :: r2 => if d = '+' ∨ d = '-' then ([d], r2) else ([], rest)
          | [] => ([], [])
        let ds := sr.2.takeWhile Char.isDigit
        if ds = [] then ([], s)
        else (c :: sr.1 ++ ds, sr.2.dropWhile Char.isDigit)
      else ([], s)
  | [] => ([], [])

/-- Match the unsigned part of the number regex (integer part, optional
fraction, optional exponent) at the head of `s`. -/
def matchNumPos (s : Str) : Option (Str × Str) :=
  match matchIntPart s with
  | some (ip, r1) =>
      let fr := matchFrac r1
      let er := matchExp fr.2
      some (ip ++ fr.1 ++ er.1, er.2)
  | none => none

/-- Try to match the full number regex at the head of `s` (an optional
minus sign followed by the unsigned part; a lone minus sign matches
nothing, as in the regex). -/
def matchNumAt (s : Str) : Option (Str × Str) :=
  match s with
  | c :: rest =>
      if c = '-' then (matchNumPos rest).map fun pr => ('-' :: pr.1, pr.2)
      else matchNumPos (c :: rest)
  | [] => none

/-- All regex matches in left-to-right order (model of `regex.findall`),
with fuel bounded by the input length. -/
def findNumbersAux : Nat → Str → List Str
  | 0, _ => []
  | _, [] => []
  | fuel + 1, c :: cs =>
      match matchNumAt (c :: cs) with
      | some (tok, rest) => tok :: findNumbersAux fuel rest
      | none => findNumbersAux fuel cs

/-- Model of `regex.findall(numpattern, s)`. -/
def findNumbers (s : Str) : List Str := findNumbersAux s.length s

/-- Value of the exponent suffix (the characters after `e`/`E`). -/
def parseExpPart (s : Str) : Int :=
  match s with
  | '-' :: ds => -(digitsToNat ds : Int)
  | '+' :: ds => (digitsToNat ds : Int)
  | ds => (digitsToNat ds : Int)

/-- Value of an unsigned decimal/scientific literal (model of Python
`float()` on the unsigned part). -/
def parseUnsigned (r : Str) : Dec :=
  let ip := r.takeWhile Char.isDigit
  let r1 := r.dropWhile Char.isDigit
  let fp := match r1 with | '.' :: t => t.takeWhile Char.isDigit | _ => []
  let r2 := match r1 with | '.' :: t => t.dropWhile Char.isDigit | _ => r1
  let ex : Int :=
    match r2 with
    | c :: t => if c = 'e' ∨ c = 'E' then parseExpPart t else 0
    | [] => 0
  ⟨(digitsToNat ip : Int) * 10 ^ fp.length + (digitsToNat fp : Int),
   ex - (fp.length : Int)⟩

/-- Model of Python `float()` applied to a decimal/scientific literal
(as produced by the regex scanner or read from an `.out` file). -/
def parseNumber (s : Str) : Dec :=
  match s with
  | '-' :: r => let d := parseUnsigned r; ⟨-d.mant, d.exp⟩
  | '+' :: r => parseUnsigned r
  | r => parseUnsigned r

/-- Does `s` consist entirely of a single decimal/scientific literal?
(the domain on which Python `float()` succeeds; the special spellings
`inf`/`nan` do not occur in the modelled files). -/
def isFloatLit (s : Str) : Bool :=
  let r : Str := match s with | '-' :: t => t | '+' :: t => t | t => t
  let ip := r.takeWhile Char.isDigit
  let r1 := r.dropWhile Char.isDigit
  let fr : Str × Str :=
    match r1 with
    | '.' :: t => (t.takeWhile Char.isDigit, t.dropWhile Char.isDigit)
    | _ => ([], r1)
  let r3 : Str :=
    match fr.2 with
    | c :: t =>
        if c = 'e' ∨ c = 'E' then
          let t2 : Str := match t with | '+' :: u => u | '-' :: u => u | u => u
          if t2.takeWhile Char.isDigit = [] then fr.2
          else t2.dropWhile Char.isDigit
        else fr.2
    | [] => []
  (!ip.isEmpty || !fr.1.isEmpty) && r3.isEmpty

/-- Python whitespace test for `strip`. -/
def isSpaceChar (c : Char) : Bool := c.isWhitespace

/-- Model of Python `str.strip()`. -/
def pyStrip (s : Str) : Str :=
  ((s.dropWhile isSpaceChar).reverse.dropWhile isSpaceChar).reverse

/-- Model of Python `float(s)` on a string field of an `.out` line:
`some` a value when `s` is a decimal/scientific literal, `none` when
`float` raises `ValueError`. -/
def pyFloat (s : Str) : Option PyVal :=
  let t := pyStrip s
  if isFloatLit t then some (.fin (parseNumber t)) else none

/- ### `read_payoff` (vst_text.py lines 62-76) -/

/-- The line index `read_payoff` reads the payoff from: line 0 for a
`.rep` file, line 1 otherwise (including the `.out` branch and the
warning fallthrough). -/
def payoffLineIndex (outfile : Str) : Nat :=
  if ".rep".toList.isSuffixOf outfile then 0 else 1

/-- Whether `read_payoff` writes its unrecognised-extension warning to the
log (the final `else` branch of the extension dispatch). -/
def read_payoff_warns (outfile : Str) : Bool :=
  !(".rep".toList.isSuffixOf outfile) && !(".out".toList.isSuffixOf outfile)

/-- Model of `read_payoff`: pick the payoff line by extension, take the
first regex number match on it, convert with `float`.  `none` models the
`IndexError` raised when the line or the match is absent. -/
def read_payoff (outfile : Str) (lines : List Str) : Option Dec := do
  let payoffline ← lines.get? (payoffLineIndex outfile)
  let tok ← (findNumbers payoffline).head?
  pure (parseNumber tok)

/- ### `parse_outval` / `read_outvals` (vst_text.py lines 93-120) -/

/-- Model of Python `str.split('= ')` on character lists. -/
def splitOnEqAux : Str → Str → List Str
  | acc, '=' :: ' ' :: rest => acc.reverse :: splitOnEqAux [] rest
  | acc, c :: rest => splitOnEqAux (c :: acc) rest
  | acc, [] => [acc.reverse]

/-- Python `line.split('= ')`. -/
def splitOnEq (s : Str) : List Str := splitOnEqAux [] s

/-- Python `s.replace(" <", "")`. -/
def removeSpaceLT : Str → Str
  | ' ' :: '<' :: rest => removeSpaceLT rest
  | c :: rest => c :: removeSpaceLT rest
  | [] => []

/-- An entry of `parse_outval`'s working list `out`, which Python fills
with a mix of floats (`-np.inf`, `np.nan`, `np.inf`), `None`, and the
cleaned string fields. -/
inductive Slot where
  | flt (x : PyVal)
  | strv (s : Str)
  | noneV
deriving DecidableEq

/-- Python `float()` applied to a slot (`float(None)` raises). -/
def slotFloat : Slot → Option PyVal
  | .flt x => some x
  | .strv s => pyFloat s
  | .noneV => none

/-- A Parameter Record: the dict returned by `parse_outval`. -/
structure OutVal where
  Name : Str
  Value : PyVal
  Lower : PyVal
  Upper : PyVal
deriving DecidableEq

/-- `parse_outval`'s initial working list `[-np.inf, None, np.nan, np.inf]`. -/
def outvalInit : List Slot := [.flt .negInf, .noneV, .flt .nan, .flt .posInf]

/-- Model of `parse_outval`: split the line on `'= '`, clean each part,
slice-assign the parts into the defaults (from index 0 when the first raw
part ends with `'<'`, i.e. a lower bound is present, from index 1
otherwise), and convert the bound/value fields with `float`.  `none`
models an exception (a non-numeric field, or a degenerate line whose name
slot is not a string). -/
def parse_outval (line : Str) : Option OutVal :=
  let parts := splitOnEq line
  let cleaned := parts.map fun p => pyStrip (removeSpaceLT p)
  let slots := cleaned.map Slot.strv
  let out : List Slot :=
    if (parts.headD []).getLast? = some '<' then
      slots ++ outvalInit.drop slots.length
    else
      outvalInit.take 1 ++ slots ++ outvalInit.drop (slots.length + 1)
  match out.get? 0, out.get? 1, out.get? 2, out.get? 3 with
  | some s0, some s1, some s2, some s3 =>
      match slotFloat s0, s1, slotFloat s2, slotFloat s3 with
      | some lo, .strv nm, some v, some hi => some ⟨nm, v, lo, hi⟩
      | _, _, _, _ => none
  | _, _, _, _ => none

/-- Model of `read_outvals` (no transpose): drop control/comment lines
(those starting with `':'`), parse the rest in order.  `none` models an
exception (empty line indexing, or a `parse_outval` failure). -/
def read_outvals (lines : List Str) : Option (List OutVal) :=
  if lines.any fun l => l.isEmpty then none
  else (lines.filter fun l => l.headD ' ' != ':').mapM parse_outval

/- ### Health checks (vst_text.py lines 141-199) -/

/-- The zeroed-parameter condition of `check_zeroes` for one record:
`((0 < Lower) or (0 > Upper)) and (Value == 0)`. -/
def zeroFlag (r : OutVal) : Bool :=
  (PyVal.ltB (.fin ⟨0, 0⟩) r.Lower || PyVal.ltB r.Upper (.fin ⟨0, 0⟩))
    && PyVal.eqB r.Value (.fin ⟨0, 0⟩)

/-- Model of `check_zeroes`: parse the whole `.out` file, build the
checklist (one Boolean per record, `false` when the record is flagged),
and return `all(checklist)`. -/
def check_zeroes (lines : List Str) : Option Bool :=
  (read_outvals lines).map fun outdata => (outdata.map fun r => !zeroFlag r).all id

/-- Model of `check_payoffs`: compare the `.out` and `.rep` payoffs and
fail iff the absolute difference reaches the threshold
(`if abs(diff) >= threshold: return False ... return True`). -/
def check_payoffs (scriptname : Str) (outLines repLines : List Str)
    (threshold : Dec) : Option Bool := do
  let a ← read_payoff (scriptname ++ ".out".toList) outLines
  let b ← read_payoff (scriptname ++ ".rep".toList) repLines
  let diff := Dec.sub a b
  if Dec.ble threshold (Dec.dabs diff) then pure false else pure true

/-- The default `threshold=0.1` of `check_payoffs`. -/
def check_payoffs_threshold : Dec := ⟨1, -1⟩

/-- Maximal runs of digit characters, left to right: model of
`regex.findall(r'\d+', line)`. -/
def digitRunsGo : Str → Str → List Str
  | run, [] => if run.isEmpty then [] else [run.reverse]
  | run, c :: cs =>
      if c.isDigit then digitRunsGo (c :: run) cs
      else (if run.isEmpty then [] else [run.reverse]) ++ digitRunsGo [] cs

/-- `regex.findall(r'\d+', s)`. -/
def digitRuns (s : Str) : List Str := digitRunsGo [] s

/-- The `restarts` value of `check_restarts`: scan the lines for the first
one containing `:RESTART_MAX` and take its first digit run (`none` models
the `IndexError` when such a line has no digits); if no line matches, the
default `0` is kept (rendered as the string `"0"` by the f-string). -/
def findRestarts : List Str → Option Str
  | [] => some ['0']
  | l :: ls =>
      if ":RESTART_MAX".toList <:+: l then (digitRuns l).head?
      else findRestarts ls

/-- Model of `check_restarts`: extract the restart count and fail iff
`f"After {restarts} simulations"` occurs in the file's first line.
`none` models an exception (empty file, or digitless `:RESTART_MAX` line). -/
def check_restarts (filedata : List Str) : Option Bool :=
  match filedata with
  | [] => none
  | header :: _ =>
      (findRestarts filedata).map fun restarts =>
        !(decide (("After ".toList ++ restarts ++ " simulations".toList) <:+: header))

/- ### `Script.write_script` (vst.py lines 96-129) -/

/-- The attributes of a `Script` instance consumed by `write_script`.
The five settings, like `data`, are optional because `write_script` guards
them with `hasattr`; `changes` and `setvals` are always set by `__init__`
(possibly empty). -/
structure ScriptRec where
  model : String
  payoff : Option String
  sensitivity : Option String
  optparm : Option String
  savelist : Option String
  senssavelist : Option String
  data : Option (List String)
  changes : List String
  setvals : List (String × String)
  runname : String
  runcmd : String
  savecmd : String
deriving DecidableEq

/-- The `SIMULATE>{s}|{getattr(self, s)}` lines for the five optional
settings, in the fixed iteration order of `write_script`. -/
def settingLines (s : ScriptRec) : List String :=
  (match s.payoff with | some v => ["SIMULATE>payoff|" ++ v ++ "\n"] | none => [])
    ++ (match s.sensitivity with | some v => ["SIMULATE>sensitivity|" ++ v ++ "\n"] | none => [])
    ++ (match s.optparm with | some v => ["SIMULATE>optparm|" ++ v ++ "\n"] | none => [])
    ++ (match s.savelist with | some v => ["SIMULATE>savelist|" ++ v ++ "\n"] | none => [])
    ++ (match s.senssavelist with | some v => ["SIMULATE>senssavelist|" ++ v ++ "\n"] | none => [])

/-- The `SIMULATE>DATA|"..."` line (emitted when the `data` attribute exists). -/
def dataLines (s : ScriptRec) : List String :=
  match s.data with
  | some d => ["SIMULATE>DATA|\"" ++ String.intercalate "," d ++ "\"\n"]
  | none => []

/-- The change-file lines: the first as `READCIN`, the rest as `ADDCIN`. -/
def changesLines (s : ScriptRec) : List String :=
  match s.changes with
  | [] => []
  | c :: cs =>
      ("SIMULATE>READCIN|" ++ c ++ "\n") :: cs.map fun f => "SIMULATE>ADDCIN|" ++ f ++ "\n"

/-- The `SETVAL` lines, in caller-supplied order. -/
def setvalLines (s : ScriptRec) : List String :=
  s.setvals.map fun p => "SIMULATE>SETVAL|" ++ p.1 ++ "=" ++ p.2 ++ "\n"

/-- Model of `Script.write_script`: the list of command lines written to
the `.cmd` file, in the order the Python code appends them. -/
def write_script (s : ScriptRec) : List String :=
  ["SPECIAL>NOINTERACTION\n", "SPECIAL>LOADMODEL|" ++ s.model ++ "\n"]
    ++ settingLines s ++ dataLines s ++ changesLines s ++ setvalLines s
    ++ ["\n", "SIMULATE>RUNNAME|" ++ s.runname ++ "\n", "SIMULATE>REPORT|1\n",
        "MENU>" ++ s.runcmd ++ "\n", "MENU>" ++ s.savecmd ++ "|\n",
        "SPECIAL>CLEARRUNS\n", "MENU>EXIT\n"]

/-- Modelled from the spec: the command lines in the ordering claimed by
spec §4.1, which places the variable overrides (step 9, SETVAL) after the
blank separator (6), run name (7) and reporting (8) directives.  Used to
compare the claimed ordering with `write_script`. -/
def write_script_specOrder (s : ScriptRec) : List String :=
  ["SPECIAL>NOINTERACTION\n", "SPECIAL>LOADMODEL|" ++ s.model ++ "\n"]
    ++ settingLines s ++ dataLines s ++ changesLines s
    ++ ["\n", "SIMULATE>RUNNAME|" ++ s.runname ++ "\n", "SIMULATE>REPORT|1\n"]
    ++ setvalLines s
    ++ ["MENU>" ++ s.runcmd ++ "\n", "MENU>" ++ s.savecmd ++ "|\n",
        "SPECIAL>CLEARRUNS\n", "MENU>EXIT\n"]

/- ### The unbounded supervisor `run_vengine_script` (vst.py lines 225-293)

The supervisor is an event loop around an external process; we embed its
loop body as a step function on a state machine.  External observations
(process exit, popup-bypass outcome, heartbeat file modification time,
health-check outcomes) are supplied as events. -/

/-- Supervisor states.  `fatal` is never produced by `vengineStep`: it
stands for an uncaught exception escaping the loop. -/
inductive SupState where
  | starting
  | running
  | verifying
  | success
  | retrying
  | fatal
deriving DecidableEq

/-- Observable side effects of a supervisor step. -/
inductive SupAct where
  | killProc
  | logReturnCode (rc : Int)
  | logRetry
  | logContinuing
  | logOutfileMissing
deriving DecidableEq

/-- Configuration of the supervisor (the `timelimit` argument). -/
structure SupConfig where
  timelimit : Dec

/-- Exit-code classification (vst.py line 275): Vengine 9.3 returns 0 or
3221225477 on successful completion; everything else is a failure and the
supervisor retries.  Both branches log the return code; the failure branch
also logs `"Vensim! Trying again..."`. -/
def classify (rc : Int) : SupState × List SupAct :=
  if rc = 0 ∨ rc = 3221225477 then (.verifying, [.logReturnCode rc])
  else (.retrying, [.logReturnCode rc, .logRetry])

/-- Outcome of invoking one health check: a Boolean, or a
`FileNotFoundError` raised while the check runs. -/
inductive CheckOutcome where
  | ok (b : Bool)
  | fnf
deriving DecidableEq

/-- The list comprehension `[func(scriptname, logfile) for func in
check_funcs]`: every check is invoked in order; an exception aborts the
comprehension, a `False` result does not. -/
def runChecks : List CheckOutcome → Option (List Bool)
  | [] => some []
  | .ok b :: rest => (runChecks rest).map fun bs => b :: bs
  | .fnf :: _ => none

/-- External events driving the supervisor loop. -/
inductive SupEvent where
  | spawn
  | exited (rc : Int)
  | bypassExited (rc : Int)
  | heartbeat (mtime : Option Dec) (now : Dec) (rcKill : Int)
  | checks (outs : List CheckOutcome)
deriving DecidableEq

/-- One iteration of `run_vengine_script`'s loop body:
* `spawn`: `subprocess.Popen` plus the settle delay and popup keystroke;
* `exited rc`: `proc.wait(timeout=timelimit)` returned within the limit;
* `bypassExited rc`: the timeout fired but the `press('enter')` bypass let
  the process finish within the 3-second grace wait;
* `heartbeat mtime now rcKill`: the bypass also timed out and the
  heartbeat file check ran: `mtime = none` models `FileNotFoundError` from
  `os.path.getmtime`; `rcKill` is the exit code observed after
  `proc.kill()`;
* `checks outs`: the verification step after an accepted exit code.
Unreachable state/event pairs leave the state unchanged. -/
def vengineStep (cfg : SupConfig) : SupState → SupEvent → SupState × List SupAct
  | .starting, .spawn => (.running, [])
  | .retrying, .spawn => (.running, [])
  | .running, .exited rc => classify rc
  | .running, .bypassExited rc => classify rc
  | .running, .heartbeat (some m) now rcKill =>
      if Dec.blt (Dec.sub now m) cfg.timelimit then (.running, [.logContinuing])
      else ((classify rcKill).1, .killProc :: (classify rcKill).2)
  | .running, .heartbeat none _ rcKill =>
      ((classify rcKill).1, .killProc :: (classify rcKill).2)
  | .verifying, .checks outs =>
      match runChecks outs with
      | some bs => if bs.all id then (.success, []) else (.retrying, [])
      | none => (.retrying, [.logOutfileMissing])
  | s, _ => (s, [])

/- ### The bounded supervisor `run_vensim_script` (vst.py lines 296-322) -/

/-- Observations of one attempt of `run_vensim_script`: whether
`subprocess.run(..., check=True)` succeeded (exit code 0), and whether the
designated `outext` output file exists afterwards. -/
structure VensimAttempt where
  exitOk : Bool
  outputExists : Bool
deriving DecidableEq

/-- The `while attempts < maxattempts` loop: returns the index of the
attempt that broke out of the loop (non-zero exit or missing output file
both `continue`), or `none` when the attempt budget is exhausted. -/
def vensimTries (env : Nat → VensimAttempt) (attempt : Nat) : Nat → Option Nat
  | 0 => none
  | remaining + 1 =>
      if (env attempt).exitOk && (env attempt).outputExists then some attempt
      else vensimTries env (attempt + 1) remaining

/-- Model of `run_vensim_script`: run the bounded retry loop, then fall
through to payoff extraction unconditionally — the function returns the
`.out` payoff if that file exists and the default `0` otherwise, whether
or not the loop succeeded.  The first component records the loop outcome,
the second the returned value (`none` models an exception inside
`read_payoff`). -/
def run_vensim_script (env : Nat → VensimAttempt) (maxattempts : Nat)
    (finalOut : Option (List Str)) (scriptname : Str) : Option Nat × Option Dec :=
  (vensimTries env 0 maxattempts,
   match finalOut with
   | some lines => read_payoff (scriptname ++ ".out".toList) lines
   | none => some ⟨0, 0⟩)

/-- Modelled from the spec: `ExhaustedAttemptsError` (spec §7), which the
spec claims the bounded-retry variant surfaces to the caller after the
attempt count is exceeded.  No such error exists in the code. -/
inductive ExhaustedAttemptsError where
  | exhausted
deriving DecidableEq

/-- Modelled from the spec: the bounded-retry supervisor as spec §4.4 and
§7 describe it — identical to `run_vensim_script` except that exhausting
the attempt budget surfaces `ExhaustedAttemptsError` instead of falling
through to payoff extraction. -/
def run_vensim_script_claimed (env : Nat → VensimAttempt) (maxattempts : Nat)
    (finalOut : Option (List Str)) (scriptname : Str) :
    Except ExhaustedAttemptsError (Option Dec) :=
  match vensimTries env 0 maxattempts with
  | none => .error .exhausted
  | some _ =>
      .ok (match finalOut with
           | some lines => read_payoff (scriptname ++ ".out".toList) lines
           | none => some ⟨0, 0⟩)

/- ### Bridge lemmas: decimal operations compute rational-value facts -/

lemma Dec.scaleTo_toRat (a : Dec) (m : Int) (h : m ≤ a.exp) :
    ((a.scaleTo m : ℚ)) * (10 : ℚ) ^ m = a.toRat := by
  unfold Dec.scaleTo Dec.toRat
  push_cast
  rw [← zpow_natCast (10 : ℚ) (a.exp - m).toNat, Int.toNat_of_nonneg (by omega)]
  rw [mul_assoc, ← zpow_add₀ (by norm_num : (10 : ℚ) ≠ 0), sub_add_cancel]

lemma Dec.blt_iff (a b : Dec) : Dec.blt a b = true ↔ a.toRat < b.toRat := by
  unfold Dec.blt
  rw [decide_eq_true_eq]
  rw [← Dec.scaleTo_toRat a (min a.exp b.exp) (min_le_left _ _),
      ← Dec.scaleTo_toRat b (min a.exp b.exp) (min_le_right _ _)]
  rw [mul_lt_mul_right (zpow_pos (by norm_num : (0:ℚ) < 10) _)]
  exact_mod_cast Iff.rfl

lemma Dec.ble_iff (a b : Dec) : Dec.ble a b = true ↔ a.toRat ≤ b.toRat := by
  unfold Dec.ble
  rw [decide_eq_true_eq]
  rw [← Dec.scaleTo_toRat a (min a.exp b.exp) (min_le_left _ _),
      ← Dec.scaleTo_toRat b (min a.exp b.exp) (min_le_right _ _)]
  rw [mul_le_mul_right (zpow_pos (by norm_num : (0:ℚ) < 10) _)]
  exact_mod_cast Iff.rfl

lemma Dec.beq_iff (a b : Dec) : Dec.beq a b = true ↔ a.toRat = b.toRat := by
  unfold Dec.beq
  rw [decide_eq_true_eq]
  rw [← Dec.scaleTo_toRat a (min a.exp b.exp) (min_le_left _ _),
      ← Dec.scaleTo_toRat b (min a.exp b.exp) (min_le_right _ _)]
  rw [mul_left_inj' (by positivity : ((10 : ℚ) ^ min a.exp b.exp) ≠ 0)]
  exact_mod_cast Iff.rfl

lemma Dec.sub_toRat (a b : Dec) : (Dec.sub a b).toRat = a.toRat - b.toRat := by
  unfold Dec.sub
  rw [← Dec.scaleTo_toRat a (min a.exp b.exp) (min_le_left _ _),
      ← Dec.scaleTo_toRat b (min a.exp b.exp) (min_le_right _ _)]
  unfold Dec.toRat
  push_cast
  ring

lemma Dec.dabs_toRat (a : Dec) : (Dec.dabs a).toRat = |a.toRat| := by
  unfold Dec.dabs Dec.toRat
  rw [abs_mul, abs_of_pos (zpow_pos (by norm_num : (0:ℚ) < 10) _)]
  push_cast
  ring

/- ### Supervisor lemmas -/

lemma classify_fst_cases (rc : Int) :
    (classify rc).1 = .verifying ∨ (classify rc).1 = .retrying := by
  unfold classify
  split <;> simp

lemma runChecks_eq_none_iff (outs : List CheckOutcome) :
    runChecks outs = none ↔ .fnf ∈ outs := by
  induction outs with
  | nil => simp [runChecks]
  | cons o rest ih =>
      cases o with
      | ok b =>
          simp only [runChecks, List.mem_cons]
          cases h : runChecks rest <;> simp [h] at ih ⊢ <;> simp [ih]
      | fnf => simp [runChecks]

lemma runChecks_spec (outs : List CheckOutcome) (bs : List Bool)
    (h : runChecks outs = some bs) :
    bs.length = outs.length ∧ (bs.all id = true ↔ ∀ o ∈ outs, o = .ok true) := by
  induction outs generalizing bs with
  | nil =>
      simp [runChecks] at h
      subst h
      simp
  | cons o rest ih =>
      cases o with
      | ok b =>
          simp only [runChecks] at h
          cases hr : runChecks rest with
          | none => rw [hr] at h; simp at h
          | some bs' =>
              rw [hr] at h
              simp only [Option.map_some', Option.some.injEq] at h
              obtain ⟨hl, hiff⟩ := ih bs' hr
              subst h
              simp [hl, hiff, Bool.and_eq_true, List.all_cons]
      | fnf => simp [runChecks] at h


lemma vengineStep_ne_fatal (cfg : SupConfig) (s : SupState) (e : SupEvent)
    (hs : s ≠ .fatal) : (vengineStep cfg s e).1 ≠ .fatal := by
  cases s with
  | fatal => exact absurd rfl hs
  | starting => cases e <;> simp [vengineStep]
  | retrying => cases e <;> simp [vengineStep]
  | success => cases e <;> simp [vengineStep]
  | verifying =>
      cases e with
      | spawn => simp [vengineStep]
      | exited rc => simp [vengineStep]
      | bypassExited rc => simp [vengineStep]
      | heartbeat mtime now rcK => cases mtime <;> simp [vengineStep]
      | checks outs =>
          simp only [vengineStep]
          rcases h : runChecks outs with _ | bs <;> simp only [h]
          · simp
          · split <;> simp
  | running =>
      cases e with
      | spawn => simp [vengineStep]
      | checks outs => simp [vengineStep]
      | exited rc =>
          simp only [vengineStep]
          rcases classify_fst_cases rc with h | h <;> simp [h]
      | bypassExited rc =>
          simp only [vengineStep]
          rcases classify_fst_cases rc with h | h <;> simp [h]
      | heartbeat mtime now rcK =>
          cases mtime with
          | none =>
              simp only [vengineStep]
              rcases classify_fst_cases rcK with h | h <;> simp [h]
          | some m =>
              simp only [vengineStep]
              split
              · simp
              · rcases classify_fst_cases rcK with h | h <;> simp [h]

/-- C1: after the spawned process exits or is killed, the run is classified
as successfully terminated exactly when its exit code is in the accepted
set (0, or the known alternate code 3221225477); every other exit code —
including one observed after killing a stalled process — is logged and
sends the supervisor back to a retry, and no step from a non-fatal state
ever reaches the fatal (uncaught-error) state. -/
theorem vengine_exit_classification (cfg : SupConfig) (rc : Int) :
    ((vengineStep cfg .running (.exited rc)).1 = .verifying ↔ (rc = 0 ∨ rc = 3221225477))
    ∧ (¬(rc = 0 ∨ rc = 3221225477) →
        vengineStep cfg .running (.exited rc)
          = (.retrying, [.logReturnCode rc, .logRetry])
        ∧ vengineStep cfg .running (.bypassExited rc)
          = (.retrying, [.logReturnCode rc, .logRetry])
        ∧ ∀ now : Dec, vengineStep cfg .running (.heartbeat none now rc)
          = (.retrying, [.killProc, .logReturnCode rc, .logRetry]))
    ∧ (∀ (s : SupState) (e : SupEvent), s ≠ .fatal → (vengineStep cfg s e).1 ≠ .fatal) := by
  refine ⟨?_, ?_, fun s e hs => vengineStep_ne_fatal cfg s e hs⟩
  · by_cases h : rc = 0 ∨ rc = 3221225477 <;> simp [vengineStep, classify, h]
  · intro h
    refine ⟨?_, ?_, fun now => ?_⟩ <;> simp [vengineStep, classify, h]

/-- C1 witness: a concrete non-accepted exit code (5) is logged and leads
to a retry. -/
theorem vengine_exit_classification_witness :
    vengineStep ⟨⟨60, 0⟩⟩ .running (.exited 5)
      = (.retrying, [.logReturnCode 5, .logRetry]) :=
  ((vengine_exit_classification ⟨⟨60, 0⟩⟩ 5).2.1 (by decide)).1

/-- C2: after the wait timeout and a failed popup bypass, while the process
is still running, the supervisor re-enters the wait (no kill, no retry)
whenever the heartbeat file's elapsed time since last modification is
strictly less than the timeout, and it kills the process and proceeds to
exit-code classification exactly when the elapsed time reaches the timeout
or the heartbeat file is missing. -/
theorem vengine_heartbeat (cfg : SupConfig) (m now : Dec) (rcKill : Int) :
    (now.toRat - m.toRat < cfg.timelimit.toRat →
      vengineStep cfg .running (.heartbeat (some m) now rcKill)
        = (.running, [.logContinuing]))
    ∧ (cfg.timelimit.toRat ≤ now.toRat - m.toRat →
      vengineStep cfg .running (.heartbeat (some m) now rcKill)
        = ((classify rcKill).1, .killProc :: (classify rcKill).2))
    ∧ (vengineStep cfg .running (.heartbeat none now rcKill)
        = ((classify rcKill).1, .killProc :: (classify rcKill).2)) := by
  have hb : Dec.blt (Dec.sub now m) cfg.timelimit = true ↔
      now.toRat - m.toRat < cfg.timelimit.toRat := by
    rw [Dec.blt_iff, Dec.sub_toRat]
  refine ⟨fun h => ?_, fun h => ?_, ?_⟩
  · simp [vengineStep, hb.mpr h]
  · have hf : Dec.blt (Dec.sub now m) cfg.timelimit = false := by
      rw [← Bool.not_eq_true, hb]
      exact not_lt.mpr h
    simp [vengineStep, hf]
  · simp [vengineStep]

/-- C2 witness: with a 60-unit timeout, 10 units since the last heartbeat
update lead back to the wait; 60 units (and a missing heartbeat file)
lead to a kill followed by classification of the kill exit code (1),
which is rejected and triggers a retry. -/
theorem vengine_heartbeat_witness :
    vengineStep ⟨⟨60, 0⟩⟩ .running (.heartbeat (some ⟨0, 0⟩) ⟨10, 0⟩ 1)
      = (.running, [.logContinuing])
    ∧ vengineStep ⟨⟨60, 0⟩⟩ .running (.heartbeat (some ⟨0, 0⟩) ⟨60, 0⟩ 1)
      = (.retrying, [.killProc, .logReturnCode 1, .logRetry])
    ∧ vengineStep ⟨⟨60, 0⟩⟩ .running (.heartbeat none ⟨60, 0⟩ 1)
      = (.retrying, [.killProc, .logReturnCode 1, .logRetry]) := by
  have h10 : Dec.toRat ⟨10, 0⟩ - Dec.toRat ⟨0, 0⟩ < Dec.toRat ⟨60, 0⟩ := by
    simp only [Dec.toRat, zpow_zero, mul_one]
    push_cast
    norm_num
  have h60 : Dec.toRat ⟨60, 0⟩ ≤ Dec.toRat ⟨60, 0⟩ - Dec.toRat ⟨0, 0⟩ := by
    simp only [Dec.toRat, zpow_zero, mul_one]
    push_cast
    norm_num
  refine ⟨(vengine_heartbeat ⟨⟨60, 0⟩⟩ ⟨0, 0⟩ ⟨10, 0⟩ 1).1 h10, ?_, ?_⟩
  · rw [(vengine_heartbeat ⟨⟨60, 0⟩⟩ ⟨0, 0⟩ ⟨60, 0⟩ 1).2.1 h60]
    rfl
  · rw [(vengine_heartbeat ⟨⟨60, 0⟩⟩ ⟨0, 0⟩ ⟨60, 0⟩ 1).2.2]
    rfl

/-- C3: after an accepted process exit, the supervisor reaches success
exactly when every registered health check returns true; when no check
raises, every check is evaluated (the checklist has one entry per check,
with no short-circuit on a false result); and a `FileNotFoundError`
raised while the checks run is treated as a failed verification that
triggers a retry — never a fatal error. -/
theorem vengine_verification (cfg : SupConfig) (outs : List CheckOutcome) :
    ((vengineStep cfg .verifying (.checks outs)).1 = .success ↔
      ∀ o ∈ outs, o = .ok true)
    ∧ (.fnf ∉ outs → ∃ bs, runChecks outs = some bs ∧ bs.length = outs.length)
    ∧ (.fnf ∈ outs →
        vengineStep cfg .verifying (.checks outs) = (.retrying, [.logOutfileMissing]))
    ∧ (∀ e : SupEvent, (vengineStep cfg .verifying e).1 ≠ .fatal) := by
  refine ⟨?_, ?_, ?_, fun e => vengineStep_ne_fatal cfg .verifying e (by simp)⟩
  · simp only [vengineStep]
    rcases h : runChecks outs with _ | bs <;> simp only [h]
    · have hmem := (runChecks_eq_none_iff outs).mp h
      constructor
      · intro hc
        simp at hc
      · intro hall
        have hx := hall _ hmem
        simp at hx
    · obtain ⟨_, hiff⟩ := runChecks_spec outs bs h
      split
      · rename_i htrue
        exact ⟨fun _ => hiff.mp htrue, fun _ => rfl⟩
      · rename_i hfalse
        constructor
        · intro hc
          simp at hc
        · intro hall
          exact absurd (hiff.mpr hall) hfalse
  · intro hnf
    cases h : runChecks outs with
    | none => exact absurd ((runChecks_eq_none_iff outs).mp h) hnf
    | some bs => exact ⟨bs, rfl, (runChecks_spec outs bs h).1⟩
  · intro hmem
    have h : runChecks outs = none := (runChecks_eq_none_iff outs).mpr hmem
    simp [vengineStep, h]

/-- C3 witness: a false result does not stop evaluation of the remaining
checks, a check list with a `FileNotFoundError` outcome leads to a retry,
and an all-true check list leads to success. -/
theorem vengine_verification_witness :
    (∃ bs, runChecks [.ok false, .ok true] = some bs ∧ bs.length = 2)
    ∧ vengineStep ⟨⟨60, 0⟩⟩ .verifying (.checks [.ok true, .fnf])
      = (.retrying, [.logOutfileMissing])
    ∧ (vengineStep ⟨⟨60, 0⟩⟩ .verifying (.checks [.ok true, .ok true])).1
      = .success := by
  have h1 := (vengine_verification ⟨⟨60, 0⟩⟩ [.ok false, .ok true]).2.1
  have h2 := (vengine_verification ⟨⟨60, 0⟩⟩ [.ok true, .fnf]).2.2.1
  have h3 := (vengine_verification ⟨⟨60, 0⟩⟩ [.ok true, .ok true]).1
  exact ⟨h1 (by decide), h2 (by decide), h3.mpr (by decide)⟩

/- ### Bounded-retry supervisor lemmas -/

/-- An attempt of `run_vensim_script` breaks out of the retry loop iff the
process exited with code 0 and the designated output file exists. -/
def vensimSucceeds (env : Nat → VensimAttempt) (i : Nat) : Bool :=
  (env i).exitOk && (env i).outputExists

lemma vensimTries_some_iff (env : Nat → VensimAttempt) (a r i : Nat) :
    vensimTries env a r = some i ↔
      (a ≤ i ∧ i < a + r ∧ vensimSucceeds env i = true
        ∧ ∀ j, a ≤ j → j < i → vensimSucceeds env j = false) := by
  induction r generalizing a with
  | zero =>
      simp only [vensimTries]
      constructor
      · intro h
        exact Option.noConfusion h
      · rintro ⟨h1, h2, -⟩
        omega
  | succ r ih =>
      simp only [vensimTries]
      by_cases hg : vensimSucceeds env a = true
      · rw [if_pos (by simpa [vensimSucceeds] using hg)]
        constructor
        · rintro h
          obtain rfl : a = i := by simpa using h
          exact ⟨le_refl a, by omega, hg, fun j h1 h2 => absurd h1 (by omega)⟩
        · rintro ⟨h1, h2, h3, h4⟩
          rcases eq_or_lt_of_le h1 with rfl | hlt
          · rfl
          · exact absurd hg (by simp [h4 a (le_refl a) hlt])
      · rw [if_neg (by simpa [vensimSucceeds] using hg)]
        rw [ih (a + 1)]
        constructor
        · rintro ⟨h1, h2, h3, h4⟩
          refine ⟨by omega, by omega, h3, fun j hj1 hj2 => ?_⟩
          rcases eq_or_lt_of_le hj1 with rfl | hlt
          · exact Bool.not_eq_true _ ▸ (by simpa using hg)
          · exact h4 j hlt hj2
        · rintro ⟨h1, h2, h3, h4⟩
          have hne : a ≠ i := by
            rintro rfl
            exact hg h3
          exact ⟨by omega, by omega, h3, fun j hj1 hj2 => h4 j (by omega) hj2⟩

lemma vensimTries_none_iff (env : Nat → VensimAttempt) (a r : Nat) :
    vensimTries env a r = none ↔
      ∀ j, a ≤ j → j < a + r → vensimSucceeds env j = false := by
  induction r generalizing a with
  | zero =>
      simp only [vensimTries, true_iff]
      intro j h1 h2
      omega
  | succ r ih =>
      simp only [vensimTries]
      by_cases hg : vensimSucceeds env a = true
      · rw [if_pos (by simpa [vensimSucceeds] using hg)]
        constructor
        · intro h
          exact Option.noConfusion h
        · intro hall
          exact absurd hg (by simp [hall a (le_refl a) (by omega)])
      · rw [if_neg (by simpa [vensimSucceeds] using hg)]
        rw [ih (a + 1)]
        constructor
        · intro hall j hj1 hj2
          rcases eq_or_lt_of_le hj1 with rfl | hlt
          · exact Bool.not_eq_true _ ▸ (by simpa using hg)
          · exact hall j hlt (by omega)
        · intro hall j hj1 hj2
          exact hall j (by omega) (by omega)

/-- C9 (amended): the bounded-retry supervisor loops up to the fixed
attempt count, retrying an attempt exactly when the process exit code is
non-zero or the designated output file is absent; once the attempt budget
is exhausted (or the loop breaks) it falls through to payoff extraction,
returning the `.out` payoff when that file exists and the sentinel 0
otherwise — no error is surfaced to the caller. -/
theorem run_vensim_bounded (env : Nat → VensimAttempt) (maxattempts : Nat)
    (finalOut : Option (List Str)) (scriptname : Str) :
    (∀ i, (run_vensim_script env maxattempts finalOut scriptname).1 = some i ↔
      (i < maxattempts ∧ vensimSucceeds env i = true
        ∧ ∀ j, j < i → vensimSucceeds env j = false))
    ∧ ((run_vensim_script env maxattempts finalOut scriptname).1 = none ↔
      ∀ j, j < maxattempts → vensimSucceeds env j = false)
    ∧ ((run_vensim_script env maxattempts finalOut scriptname).2 =
      match finalOut with
      | some lines => read_payoff (scriptname ++ ".out".toList) lines
      | none => some ⟨0, 0⟩) := by
  refine ⟨fun i => ?_, ?_, rfl⟩
  · show vensimTries env 0 maxattempts = some i ↔ _
    rw [vensimTries_some_iff]
    constructor
    · rintro ⟨-, h2, h3, h4⟩
      exact ⟨by omega, h3, fun j hj => h4 j (by omega) hj⟩
    · rintro ⟨h1, h2, h3⟩
      exact ⟨by omega, by omega, h2, fun j _ hj => h3 j hj⟩
  · show vensimTries env 0 maxattempts = none ↔ _
    rw [vensimTries_none_iff]
    constructor
    · intro h j hj
      exact h j (by omega) (by omega)
    · intro h j _ hj
      exact h j (by omega)

/-- C9 witness: with an environment whose first attempt fails on exit code
and whose second succeeds, the loop stops at attempt 1 and the `.out`
payoff is returned. -/
theorem run_vensim_bounded_witness :
    (run_vensim_script
      (fun i => if i = 0 then ⟨false, false⟩ else ⟨true, true⟩) 10
      none ['s']).1 = some 1
    ∧ (run_vensim_script
      (fun i => if i = 0 then ⟨false, false⟩ else ⟨true, true⟩) 10
      none ['s']).2 = some ⟨0, 0⟩ := by
  have h := run_vensim_bounded
    (fun i => if i = 0 then ⟨false, false⟩ else ⟨true, true⟩) 10 none ['s']
  refine ⟨(h.1 1).mpr ⟨by omega, by decide, ?_⟩, h.2.2⟩
  intro j hj
  interval_cases j
  decide

/-- The environment in which every attempt fails (exit code non-zero). -/
def envAllFail : Nat → VensimAttempt := fun _ => ⟨false, false⟩

/-- C9 (counterexample): with every attempt failing and no `.out` file,
the bounded-retry supervisor of the code exhausts its 10 attempts and
still returns normally with the sentinel payoff 0, while the spec-claimed
variant surfaces `ExhaustedAttemptsError`; the claim that the code
surfaces the error after the attempt budget is exceeded is false. -/
theorem run_vensim_exhaustion_counterexample :
    run_vensim_script envAllFail 10 none ['s'] = (none, some ⟨0, 0⟩)
    ∧ run_vensim_script_claimed envAllFail 10 none ['s'] = .error .exhausted := by
  constructor <;> rfl

/- ### Script-writer ordering -/

/-- A minimal Script descriptor with a single variable override. -/
def scriptWithSetval : ScriptRec :=
  ⟨"m.mdl", none, none, none, none, none, none, [], [("x", "1")], "r",
   "RUN_OPTIMIZE|o", "VDF2TAB"⟩

/-- C4 (counterexample): on a descriptor with one variable override,
`write_script` puts the SETVAL line immediately after the change files and
before the blank separator, run name and reporting directives — not after
reporting as the claimed §4.1 ordering states — so the emitted script
differs from the claimed ordering. -/
theorem write_script_order_counterexample :
    write_script scriptWithSetval ≠ write_script_specOrder scriptWithSetval
    ∧ write_script scriptWithSetval =
      ["SPECIAL>NOINTERACTION\n", "SPECIAL>LOADMODEL|m.mdl\n",
       "SIMULATE>SETVAL|x=1\n", "\n", "SIMULATE>RUNNAME|r\n",
       "SIMULATE>REPORT|1\n", "MENU>RUN_OPTIMIZE|o\n", "MENU>VDF2TAB|\n",
       "SPECIAL>CLEARRUNS\n", "MENU>EXIT\n"]
    ∧ write_script_specOrder scriptWithSetval =
      ["SPECIAL>NOINTERACTION\n", "SPECIAL>LOADMODEL|m.mdl\n",
       "\n", "SIMULATE>RUNNAME|r\n", "SIMULATE>REPORT|1\n",
       "SIMULATE>SETVAL|x=1\n", "MENU>RUN_OPTIMIZE|o\n", "MENU>VDF2TAB|\n",
       "SPECIAL>CLEARRUNS\n", "MENU>EXIT\n"] := by
  refine ⟨?_, rfl, rfl⟩
  decide

lemma write_script_mono {s t : ScriptRec}
    (hm : t.model = s.model) (hr : t.runname = s.runname)
    (hrc : t.runcmd = s.runcmd) (hsc : t.savecmd = s.savecmd)
    (h1 : List.Sublist (settingLines t) (settingLines s))
    (h2 : List.Sublist (dataLines t) (dataLines s))
    (h3 : List.Sublist (changesLines t) (changesLines s))
    (h4 : List.Sublist (setvalLines t) (setvalLines s)) :
    List.Sublist (write_script t) (write_script s) := by
  unfold write_script
  rw [hm, hr, hrc, hsc]
  simp only [List.append_assoc]
  exact (List.Sublist.refl _).append
    (h1.append (h2.append (h3.append (h4.append (List.Sublist.refl _)))))

/-- C4 (amended): `write_script` emits the directives in the fixed order
(1) disable interactive prompts, (2) load model, (3) optional setting
declarations, (4) data files, (5) change files — first as READCIN, the
rest as ADDCIN — (6) variable overrides (SETVAL) in caller-supplied order,
(7) blank separator, (8) run name, (9) reporting, (10) run command,
(11) save command, (12) clear run state, (13) exit; and removing any
optional field (a setting, the data files, the change files, or the
overrides) leaves the remaining present directives in the same relative
order (the new script is a sublist of the old). -/
theorem write_script_order (s : ScriptRec) :
    (write_script s =
      ["SPECIAL>NOINTERACTION\n", "SPECIAL>LOADMODEL|" ++ s.model ++ "\n"]
        ++ settingLines s ++ dataLines s ++ changesLines s ++ setvalLines s
        ++ ["\n", "SIMULATE>RUNNAME|" ++ s.runname ++ "\n", "SIMULATE>REPORT|1\n",
            "MENU>" ++ s.runcmd ++ "\n", "MENU>" ++ s.savecmd ++ "|\n",
            "SPECIAL>CLEARRUNS\n", "MENU>EXIT\n"])
    ∧ List.Sublist (write_script { s with payoff := none }) (write_script s)
    ∧ List.Sublist (write_script { s with sensitivity := none }) (write_script s)
    ∧ List.Sublist (write_script { s with optparm := none }) (write_script s)
    ∧ List.Sublist (write_script { s with savelist := none }) (write_script s)
    ∧ List.Sublist (write_script { s with senssavelist := none }) (write_script s)
    ∧ List.Sublist (write_script { s with data := none }) (write_script s)
    ∧ List.Sublist (write_script { s with changes := [] }) (write_script s)
    ∧ List.Sublist (write_script { s with setvals := [] }) (write_script s) := by
  refine ⟨rfl, ?_, ?_, ?_, ?_, ?_, ?_, ?_, ?_⟩ <;>
    refine write_script_mono rfl rfl rfl rfl ?_ ?_ ?_ ?_ <;>
    simp only [settingLines, dataLines, changesLines, setvalLines] <;>
    first
    | exact List.Sublist.refl _
    | exact List.nil_sublist _
    | (refine List.Sublist.append ?_ ?_ <;>
        first
        | exact List.Sublist.refl _
        | exact List.nil_sublist _
        | (refine List.Sublist.append ?_ ?_ <;>
            first
            | exact List.Sublist.refl _
            | exact List.nil_sublist _
            | (refine List.Sublist.append ?_ ?_ <;>
                first
                | exact List.Sublist.refl _
                | exact List.nil_sublist _
                | (refine List.Sublist.append ?_ ?_ <;>
                    first
                    | exact List.Sublist.refl _
                    | exact List.nil_sublist _))))

/- ### Payoff consistency (C7) -/

/-- C7: `check_payoffs` succeeds exactly when the absolute difference
between the `.out` and `.rep` payoffs is strictly below the threshold, and
fails exactly when the difference reaches the threshold; the default
threshold is 0.1. -/
theorem check_payoffs_iff (scriptname : Str) (outLines repLines : List Str)
    (threshold p q : Dec)
    (hp : read_payoff (scriptname ++ ".out".toList) outLines = some p)
    (hq : read_payoff (scriptname ++ ".rep".toList) repLines = some q) :
    (check_payoffs scriptname outLines repLines threshold = some true ↔
      |p.toRat - q.toRat| < threshold.toRat)
    ∧ (check_payoffs scriptname outLines repLines threshold = some false ↔
      threshold.toRat ≤ |p.toRat - q.toRat|)
    ∧ check_payoffs_threshold.toRat = 1 / 10 := by
  have hdef : check_payoffs_threshold.toRat = 1 / 10 := by
    norm_num [check_payoffs_threshold, Dec.toRat]
  have hcond : Dec.ble threshold (Dec.dabs (Dec.sub p q)) = true ↔
      threshold.toRat ≤ |p.toRat - q.toRat| := by
    rw [Dec.ble_iff, Dec.dabs_toRat, Dec.sub_toRat]
  unfold check_payoffs
  rw [hp, hq]
  simp only [Option.pure_def, Option.bind_eq_bind, Option.some_bind]
  by_cases h : Dec.ble threshold (Dec.dabs (Dec.sub p q)) = true
  · rw [if_pos h]
    refine ⟨⟨fun hc => Option.noConfusion hc (fun he => Bool.noConfusion he),
      fun hlt => absurd (hcond.mp h) (not_le.mpr hlt)⟩, ⟨fun _ => hcond.mp h, fun _ => rfl⟩, hdef⟩
  · rw [if_neg h]
    have hlt : |p.toRat - q.toRat| < threshold.toRat := by
      have := (not_iff_not.mpr hcond).mp h
      exact not_le.mp this
    refine ⟨⟨fun _ => hlt, fun _ => rfl⟩,
      ⟨fun hc => Option.noConfusion hc (fun he => Bool.noConfusion he),
       fun hle => absurd hle (not_le.mpr hlt)⟩, hdef⟩

/-- C7 witness: with `.out` payoff 10.0 and `.rep` payoff 10.05 the
difference is below the default threshold 0.1 (check passes), and with
`.rep` payoff 10.2 it reaches the threshold (check fails). -/
theorem check_payoffs_witness :
    |(Dec.toRat ⟨100, -1⟩) - (Dec.toRat ⟨1005, -2⟩)| < Dec.toRat ⟨1, -1⟩
    ∧ Dec.toRat ⟨1, -1⟩ ≤ |(Dec.toRat ⟨100, -1⟩) - (Dec.toRat ⟨102, -1⟩)| := by
  have h1 := (check_payoffs_iff ['s']
    [['h'], "10.0 end".toList] ["10.05 end".toList]
    ⟨1, -1⟩ ⟨100, -1⟩ ⟨1005, -2⟩ (by decide) (by decide)).1
  have h2 := (check_payoffs_iff ['s']
    [['h'], "10.0 end".toList] ["10.2 end".toList]
    ⟨1, -1⟩ ⟨100, -1⟩ ⟨102, -1⟩ (by decide) (by decide)).2.1
  exact ⟨h1.mp (by decide), h2.mp (by decide)⟩

/- ### Token shapes and the scanner round-trip (C8) -/

lemma takeWhile_all_append (p : Char → Bool) (l s : Str)
    (hl : ∀ c ∈ l, p c = true)
    (hs : ∀ c, s.head? = some c → p c = false) :
    (l ++ s).takeWhile p = l ∧ (l ++ s).dropWhile p = s := by
  induction l with
  | nil =>
      simp only [List.nil_append]
      cases s with
      | nil => exact ⟨rfl, rfl⟩
      | cons c cs =>
          have hc := hs c rfl
          simp [List.takeWhile_cons, List.dropWhile_cons, hc]
  | cons a l ih =>
      have ha := hl a (by simp)
      have ih2 := ih fun c hc => hl c (by simp [hc])
      simp [List.takeWhile_cons, List.dropWhile_cons, ha, ih2.1, ih2.2]

/-- Validity of an integer-part string for the regex `0|[1-9]\d*`. -/
def validIP : Str → Bool
  | [] => false
  | c :: ds => if c = '0' then ds.isEmpty else c.isDigit && ds.all Char.isDigit

/-- A property of the value of an optional field, trivially true for
`none`. -/
def OptProp {α : Type} (P : α → Prop) : Option α → Prop
  | none => True
  | some x => P x

instance {α : Type} (P : α → Prop) [hP : ∀ x, Decidable (P x)] :
    ∀ o : Option α, Decidable (OptProp P o)
  | none => isTrue trivial
  | some x => hP x

/-- The exponent part of a number token (`e`/`E`, optional sign, digits). -/
structure ExpPart where
  echar : Char
  esign : Option Char
  edigits : Str
deriving DecidableEq

/-- The characters of an exponent part. -/
def ExpPart.render (e : ExpPart) : Str :=
  e.echar :: ((match e.esign with | some c => [c] | none => []) ++ e.edigits)

/-- A decimal/scientific number token, in the shape of the `read_payoff`
regex: optional sign, integer part, optional fraction, optional exponent. -/
structure NumTok where
  neg : Bool
  ip : Str
  frac : Option Str
  ex : Option ExpPart
deriving DecidableEq

/-- The fraction characters contributed by an optional fraction part. -/
def fracStr : Option Str → Str
  | none => []
  | some f => '.' :: f

/-- The characters contributed by an optional exponent part. -/
def expStr : Option ExpPart → Str
  | none => []
  | some e => e.render

/-- The characters of a number token. -/
def NumTok.render (t : NumTok) : Str :=
  (if t.neg then ['-'] else []) ++ t.ip ++ fracStr t.frac ++ expStr t.ex

/-- Well-formedness of a number token: each component has the shape the
regex requires. -/
def NumTok.Wf (t : NumTok) : Prop :=
  validIP t.ip = true
  ∧ OptProp (fun f => ∀ c ∈ f, c.isDigit = true) t.frac
  ∧ OptProp (fun e =>
      (e.echar = 'e' ∨ e.echar = 'E')
      ∧ OptProp (fun c => c = '+' ∨ c = '-') e.esign
      ∧ e.edigits ≠ []
      ∧ (∀ c ∈ e.edigits, c.isDigit = true)) t.ex

instance (t : NumTok) : Decidable t.Wf := by
  unfold NumTok.Wf
  exact inferInstance

/-- A suffix that cannot extend a greedy match of the number regex: empty,
or starting with a character that is not a digit, `.`, `e` or `E`. -/
def noExtend : Str → Bool
  | [] => true
  | c :: _ => !c.isDigit && !(c = '.') && !(c = 'e') && !(c = 'E')

lemma matchIntPart_spec (ip tail : Str) (hv : validIP ip = true)
    (ht : ∀ c, tail.head? = some c → c.isDigit = false) :
    matchIntPart (ip ++ tail) = some (ip, tail) := by
  cases ip with
  | nil => simp [validIP] at hv
  | cons c ds =>
      by_cases h0 : c = '0'
      · subst h0
        have hds : ds = [] := by
          simpa [validIP, List.isEmpty_iff] using hv
        subst hds
        simp [matchIntPart]
      · have hv2 : c.isDigit = true ∧ ∀ x ∈ ds, x.isDigit = true := by
          simpa [validIP, h0, List.all_eq_true] using hv
        have hw := takeWhile_all_append Char.isDigit ds tail hv2.2 ht
        simp [matchIntPart, h0, hv2.1, hw.1, hw.2]

lemma matchFrac_none (tail : Str) (ht : ∀ c, tail.head? = some c → ¬c = '.') :
    matchFrac tail = ([], tail) := by
  cases tail with
  | nil => rfl
  | cons c cs => simp [matchFrac, ht c rfl]

lemma matchFrac_some (f tail : Str) (hf : ∀ c ∈ f, c.isDigit = true)
    (ht : ∀ c, tail.head? = some c → c.isDigit = false) :
    matchFrac ('.' :: (f ++ tail)) = ('.' :: f, tail) := by
  have hw := takeWhile_all_append Char.isDigit f tail hf ht
  simp [matchFrac, hw.1, hw.2]

lemma matchExp_none (tail : Str)
    (ht : ∀ c, tail.head? = some c → ¬c = 'e' ∧ ¬c = 'E') :
    matchExp tail = ([], tail) := by
  cases tail with
  | nil => rfl
  | cons c cs =>
      have hc := ht c rfl
      simp [matchExp, hc.1, hc.2]

lemma matchExp_some (e : ExpPart) (tail : Str)
    (hch : e.echar = 'e' ∨ e.echar = 'E')
    (hsgn : OptProp (fun c => c = '+' ∨ c = '-') e.esign)
    (hne : e.edigits ≠ [])
    (hd : ∀ c ∈ e.edigits, c.isDigit = true)
    (ht : ∀ c, tail.head? = some c → c.isDigit = false) :
    matchExp (e.render ++ tail) = (e.render, tail) := by
  obtain ⟨d0, ds, hds⟩ := List.exists_cons_of_ne_nil hne
  have hw := takeWhile_all_append Char.isDigit e.edigits tail hd ht
  have htw : (e.edigits ++ tail).takeWhile Char.isDigit = e.edigits := hw.1
  have hdw : (e.edigits ++ tail).dropWhile Char.isDigit = tail := hw.2
  have hd0 : d0.isDigit = true := hd d0 (by rw [hds]; simp)
  have hd0ne : ¬(d0 = '+' ∨ d0 = '-') := by
    rintro (rfl | rfl) <;> exact absurd hd0 (by decide)
  cases hsg : e.esign with
  | none =>
      have hr : e.render ++ tail = e.echar :: (e.edigits ++ tail) := by
        simp [ExpPart.render, hsg]
      rw [hr]
      rw [hds]
      simp only [matchExp, List.cons_append]
      rw [if_pos hch, if_neg hd0ne]
      rw [← List.cons_append, ← hds, htw, hdw]
      rw [if_neg hne]
      simp [ExpPart.render, hsg]
  | some sg =>
      have hsg2 : sg = '+' ∨ sg = '-' := by
        rw [hsg] at hsgn
        exact hsgn
      have hr : e.render ++ tail = e.echar :: sg :: (e.edigits ++ tail) := by
        simp [ExpPart.render, hsg]
      rw [hr]
      simp only [matchExp]
      rw [if_pos hch, if_pos hsg2]
      rw [htw, hdw]
      rw [if_neg hne]
      simp [ExpPart.render, hsg]

lemma head_rest_safe (rest : Str) (hb : noExtend rest = true) :
    ∀ c, rest.head? = some c →
      c.isDigit = false ∧ ¬c = '.' ∧ ¬c = 'e' ∧ ¬c = 'E' := by
  intro c hc
  cases rest with
  | nil => exact Option.noConfusion hc
  | cons r rs =>
      obtain rfl : r = c := by simpa using hc
      simpa [noExtend, Bool.and_eq_true, Bool.not_eq_true',
        decide_eq_false_iff_not, and_assoc] using hb

lemma head_expRest_safe (ex : Option ExpPart) (rest : Str)
    (hex : ∀ e, ex = some e → (e.echar = 'e' ∨ e.echar = 'E'))
    (hb : noExtend rest = true) :
    ∀ c, (expStr ex ++ rest).head? = some c → c.isDigit = false ∧ ¬c = '.' := by
  intro c hc
  cases ex with
  | none =>
      simp only [expStr, List.nil_append] at hc
      have h := head_rest_safe rest hb c hc
      exact ⟨h.1, h.2.1⟩
  | some e =>
      simp only [expStr, ExpPart.render, List.cons_append, List.head?,
        Option.some.injEq] at hc
      subst hc
      rcases hex e rfl with h | h <;> rw [h] <;> exact ⟨by decide, by decide⟩

lemma matchNumPos_spec (ip : Str) (frac : Option Str) (ex : Option ExpPart) (rest : Str)
    (hip : validIP ip = true)
    (hfrac : OptProp (fun f => ∀ c ∈ f, c.isDigit = true) frac)
    (hex : OptProp (fun e =>
        (e.echar = 'e' ∨ e.echar = 'E')
        ∧ OptProp (fun c => c = '+' ∨ c = '-') e.esign
        ∧ e.edigits ≠ [] ∧ (∀ c ∈ e.edigits, c.isDigit = true)) ex)
    (hb : noExtend rest = true) :
    matchNumPos (ip ++ (fracStr frac ++ (expStr ex ++ rest)))
      = some (ip ++ fracStr frac ++ expStr ex, rest) := by
  have hexch : ∀ e, ex = some e → (e.echar = 'e' ∨ e.echar = 'E') := by
    intro e he
    subst he
    exact hex.1
  have hsafe1 := head_expRest_safe ex rest hexch hb
  have hrestSafe := head_rest_safe rest hb
  have hnotdig : ∀ c, (fracStr frac ++ (expStr ex ++ rest)).head? = some c →
      c.isDigit = false := by
    intro c hc
    cases frac with
    | some f =>
        simp only [fracStr, List.cons_append, List.head?, Option.some.injEq] at hc
        subst hc
        decide
    | none =>
        simp only [fracStr, List.nil_append] at hc
        exact (hsafe1 c hc).1
  have hfr : matchFrac (fracStr frac ++ (expStr ex ++ rest))
      = (fracStr frac, expStr ex ++ rest) := by
    cases frac with
    | none =>
        simp only [fracStr, List.nil_append]
        exact matchFrac_none _ fun c hc => (hsafe1 c hc).2
    | some f =>
        simp only [fracStr, List.cons_append]
        exact matchFrac_some f _ hfrac fun c hc => (hsafe1 c hc).1
  have hexp : matchExp (expStr ex ++ rest) = (expStr ex, rest) := by
    cases ex with
    | none =>
        simp only [expStr, List.nil_append]
        exact matchExp_none rest fun c hc =>
          ⟨(hrestSafe c hc).2.2.1, (hrestSafe c hc).2.2.2⟩
    | some e =>
        simp only [expStr]
        exact matchExp_some e rest hex.1 hex.2.1 hex.2.2.1 hex.2.2.2
          fun c hc => (hrestSafe c hc).1
  unfold matchNumPos
  rw [matchIntPart_spec ip _ hip hnotdig]
  simp only [hfr, hexp, List.append_assoc]

lemma matchNumAt_spec (t : NumTok) (rest : Str) (hv : t.Wf) (hb : noExtend rest = true) :
    matchNumAt (t.render ++ rest) = some (t.render, rest) := by
  obtain ⟨hip, hfrac, hex⟩ := hv
  cases hneg : t.neg with
  | true =>
      have hr : t.render ++ rest
          = '-' :: (t.ip ++ (fracStr t.frac ++ (expStr t.ex ++ rest))) := by
        simp [NumTok.render, hneg, List.append_assoc]
      rw [hr]
      simp only [matchNumAt, eq_self_iff_true, if_true]
      rw [matchNumPos_spec t.ip t.frac t.ex rest hip hfrac hex hb]
      simp [NumTok.render, hneg, List.append_assoc]
  | false =>
      cases hips : t.ip with
      | nil => rw [hips] at hip; simp [validIP] at hip
      | cons c ds =>
          have hcne : ¬c = '-' := by
            rw [hips] at hip
            by_cases h0 : c = '0'
            · subst h0; decide
            · have hcd : c.isDigit = true := by
                have := hip
                simp only [validIP, if_neg h0, Bool.and_eq_true] at this
                exact this.1
              rintro rfl
              exact absurd hcd (by decide)
          have hr : t.render ++ rest
              = c :: (ds ++ (fracStr t.frac ++ (expStr t.ex ++ rest))) := by
            simp [NumTok.render, hneg, hips, List.append_assoc]
          have hpos := matchNumPos_spec t.ip t.frac t.ex rest hip hfrac hex hb
          rw [hips] at hpos
          rw [hr]
          simp only [matchNumAt]
          rw [if_neg hcne]
          simp only [List.cons_append, List.append_assoc] at hpos
          rw [hpos]
          simp [NumTok.render, hneg, hips, List.append_assoc]

lemma findNumbers_head (s tok rest : Str) (hne : s ≠ [])
    (h : matchNumAt s = some (tok, rest)) :
    (findNumbers s).head? = some tok := by
  obtain ⟨c, cs, rfl⟩ := List.exists_cons_of_ne_nil hne
  show (findNumbersAux (c :: cs).length (c :: cs)).head? = some tok
  rw [List.length_cons]
  simp only [findNumbersAux, h, List.head?]

lemma NumTok.render_ne_nil (t : NumTok) (hv : t.Wf) : t.render ≠ [] := by
  obtain ⟨hip, -, -⟩ := hv
  cases hips : t.ip with
  | nil => rw [hips] at hip; simp [validIP] at hip
  | cons c ds =>
      cases hneg : t.neg <;>
        simp [NumTok.render, hneg, hips]

/- ### Extension dispatch of `read_payoff` (C8, C10) -/

lemma eqFalse_ne_true {b : Bool} (h : b = false) : ¬b = true := by
  rw [h]
  exact Bool.noConfusion

lemma suffix_eq_of_length {l s₁ s₂ : Str} (h₁ : s₁ <:+ l) (h₂ : s₂ <:+ l)
    (hlen : s₁.length = s₂.length) : s₁ = s₂ := by
  obtain ⟨p₁, rfl⟩ := h₁
  obtain ⟨p₂, hp⟩ := h₂
  have hl : p₂.length = p₁.length := by
    have hlen2 := congrArg List.length hp
    simp only [List.length_append] at hlen2
    omega
  exact ((List.append_inj hp hl).2).symm

lemma not_rep_suffix_of_out {f : Str} (h : ".out".toList.isSuffixOf f = true) :
    ".rep".toList.isSuffixOf f = false := by
  cases hx : ".rep".toList.isSuffixOf f with
  | false => rfl
  | true =>
      have hrep : ".rep".toList <:+ f := List.isSuffixOf_iff_suffix.mp hx
      have hout : ".out".toList <:+ f := List.isSuffixOf_iff_suffix.mp h
      have : (".rep".toList : Str) = ".out".toList :=
        suffix_eq_of_length hrep hout (by decide)
      exact absurd this (by decide)

/-- C8: `read_payoff` selects line index 0 for `.rep` files and line
index 1 for `.out` files, extracts the first token on that line matching
the decimal/scientific number regex, and returns its `float` value — for
any well-formed number token placed first on the selected line (followed
by a suffix that cannot extend the greedy match), the returned payoff is
exactly the parsed value of that token. -/
theorem read_payoff_spec :
    (∀ f : Str, ".rep".toList.isSuffixOf f = true → payoffLineIndex f = 0)
    ∧ (∀ f : Str, ".out".toList.isSuffixOf f = true → payoffLineIndex f = 1)
    ∧ (∀ (t : NumTok) (rest : Str) (tail : List Str) (f : Str),
        t.Wf → noExtend rest = true → ".rep".toList.isSuffixOf f = true →
        read_payoff f ((t.render ++ rest) :: tail) = some (parseNumber t.render))
    ∧ (∀ (t : NumTok) (rest l0 : Str) (tail : List Str) (f : Str),
        t.Wf → noExtend rest = true → ".out".toList.isSuffixOf f = true →
        read_payoff f (l0 :: (t.render ++ rest) :: tail)
          = some (parseNumber t.render)) := by
  have hrep : ∀ f : Str, ".rep".toList.isSuffixOf f = true → payoffLineIndex f = 0 := by
    intro f h
    unfold payoffLineIndex
    rw [if_pos h]
  have hout : ∀ f : Str, ".out".toList.isSuffixOf f = true → payoffLineIndex f = 1 := by
    intro f h
    unfold payoffLineIndex
    rw [if_neg (eqFalse_ne_true (not_rep_suffix_of_out h))]
  have hline : ∀ (t : NumTok) (rest : Str), t.Wf → noExtend rest = true →
      (findNumbers (t.render ++ rest)).head? = some t.render := by
    intro t rest hv hb
    refine findNumbers_head _ _ _ ?_ (matchNumAt_spec t rest hv hb)
    intro hx
    exact NumTok.render_ne_nil t hv (List.append_eq_nil.mp hx).1
  refine ⟨hrep, hout, ?_, ?_⟩
  · intro t rest tail f hv hb hf
    unfold read_payoff
    rw [hrep f hf]
    simp only [List.get?_cons_zero, Option.pure_def, Option.bind_eq_bind,
      Option.some_bind]
    rw [hline t rest hv hb]
    simp only [Option.some_bind]
  · intro t rest l0 tail f hv hb hf
    unfold read_payoff
    rw [hout f hf]
    simp only [List.get?_cons_succ, List.get?_cons_zero, Option.pure_def,
      Option.bind_eq_bind, Option.some_bind]
    rw [hline t rest hv hb]
    simp only [Option.some_bind]

/-- C8 witness: a `.rep` file whose first line starts with the token
`10.05` yields exactly the value 10.05 (the decimal `1005e-2`), and an
`.out` file with `-2e3` first on its second line yields exactly -2000. -/
theorem read_payoff_spec_witness :
    read_payoff "run.rep".toList ["10.05 done".toList] = some ⟨1005, -2⟩
    ∧ read_payoff "run.out".toList ["header".toList, "-2e3 rest".toList]
      = some ⟨-2, 3⟩ := by
  constructor
  · have hts : (⟨false, ['1', '0'], some ['0', '5'], none⟩ : NumTok).render
        ++ " done".toList = "10.05 done".toList := by decide
    have h := read_payoff_spec.2.2.1 ⟨false, ['1', '0'], some ['0', '5'], none⟩
      " done".toList [] "run.rep".toList (by decide) (by decide) (by decide)
    rw [← hts, h]
    decide
  · have hts : (⟨true, ['2'], none, some ⟨'e', none, ['3']⟩⟩ : NumTok).render
        ++ " rest".toList = "-2e3 rest".toList := by decide
    have h := read_payoff_spec.2.2.2 ⟨true, ['2'], none, some ⟨'e', none, ['3']⟩⟩
      " rest".toList "header".toList [] "run.out".toList
      (by decide) (by decide) (by decide)
    rw [← hts, h]
    decide

/-- C10: for a file whose name ends in neither `.rep` nor `.out`,
`read_payoff` does not fail: it takes the warning branch and proceeds with
line index 1, behaving exactly like the `.out` (detail) convention. -/
theorem read_payoff_unknown_ext (f : Str) (lines : List Str)
    (h1 : ".rep".toList.isSuffixOf f = false)
    (h2 : ".out".toList.isSuffixOf f = false) :
    read_payoff_warns f = true
    ∧ payoffLineIndex f = 1
    ∧ read_payoff f lines = read_payoff (f ++ ".out".toList) lines := by
  have hidx : payoffLineIndex f = 1 := by
    unfold payoffLineIndex
    rw [if_neg (eqFalse_ne_true h1)]
  have houtSuffix : ".out".toList.isSuffixOf (f ++ ".out".toList) = true :=
    List.isSuffixOf_iff_suffix.mpr ⟨f, rfl⟩
  have hidx2 : payoffLineIndex (f ++ ".out".toList) = 1 := by
    unfold payoffLineIndex
    rw [if_neg (eqFalse_ne_true (not_rep_suffix_of_out houtSuffix))]
  have hwarn : read_payoff_warns f = true := by
    unfold read_payoff_warns
    rw [h1, h2]
    rfl
  refine ⟨hwarn, hidx, ?_⟩
  unfold read_payoff
  rw [hidx, hidx2]

/-- C10 witness: reading from `data.txt` warns, uses line index 1, and
returns the same result as the `.out` convention. -/
theorem read_payoff_unknown_ext_witness :
    read_payoff_warns "data.txt".toList = true
    ∧ payoffLineIndex "data.txt".toList = 1
    ∧ read_payoff "data.txt".toList ["7 a".toList, "9 b".toList]
      = read_payoff ("data.txt".toList ++ ".out".toList)
          ["7 a".toList, "9 b".toList] :=
  read_payoff_unknown_ext "data.txt".toList ["7 a".toList, "9 b".toList]
    (by decide) (by decide)

/- ### Zeroed parameters (C5) -/

/-- A Python float value that is exactly zero. -/
def PyVal.IsZero (v : PyVal) : Prop := ∃ d, v = .fin d ∧ d.toRat = 0

/-- Zero lies strictly outside the interval `[lo, hi]` (with the infinite
bounds never excluding zero and `nan` bounds comparing false). -/
def zeroOutside (lo hi : PyVal) : Prop :=
  ((∃ d, lo = .fin d ∧ 0 < d.toRat) ∨ lo = .posInf)
  ∨ ((∃ d, hi = .fin d ∧ d.toRat < 0) ∨ hi = .negInf)

lemma toRat_zero : Dec.toRat ⟨0, 0⟩ = 0 := by
  simp [Dec.toRat]

lemma eqB_fin_zero_iff (v : PyVal) :
    PyVal.eqB v (.fin ⟨0, 0⟩) = true ↔ PyVal.IsZero v := by
  cases v with
  | fin d => simp [PyVal.eqB, Dec.beq_iff, toRat_zero, PyVal.IsZero]
  | negInf => simp [PyVal.eqB, PyVal.IsZero]
  | posInf => simp [PyVal.eqB, PyVal.IsZero]
  | nan => simp [PyVal.eqB, PyVal.IsZero]

lemma ltB_zero_lower_iff (lo : PyVal) :
    PyVal.ltB (.fin ⟨0, 0⟩) lo = true ↔
      ((∃ d, lo = .fin d ∧ 0 < d.toRat) ∨ lo = .posInf) := by
  cases lo with
  | fin d => simp [PyVal.ltB, Dec.blt_iff, toRat_zero]
  | negInf => simp [PyVal.ltB]
  | posInf => simp [PyVal.ltB]
  | nan => simp [PyVal.ltB]

lemma ltB_upper_zero_iff (hi : PyVal) :
    PyVal.ltB hi (.fin ⟨0, 0⟩) = true ↔
      ((∃ d, hi = .fin d ∧ d.toRat < 0) ∨ hi = .negInf) := by
  cases hi with
  | fin d => simp [PyVal.ltB, Dec.blt_iff, toRat_zero]
  | negInf => simp [PyVal.ltB]
  | posInf => simp [PyVal.ltB]
  | nan => simp [PyVal.ltB]

lemma zeroFlag_iff (r : OutVal) :
    zeroFlag r = true ↔ (PyVal.IsZero r.Value ∧ zeroOutside r.Lower r.Upper) := by
  unfold zeroFlag
  rw [Bool.and_eq_true, Bool.or_eq_true]
  rw [eqB_fin_zero_iff, ltB_zero_lower_iff, ltB_upper_zero_iff]
  unfold zeroOutside
  exact and_comm

/-- C5: `check_zeroes` returns false exactly when some Parameter Record
parsed from the result file has value exactly 0 while 0 lies strictly
outside its `[lower, upper]` interval (missing bounds default to the
infinities, which never exclude 0); in particular `(lower=1, upper=5,
value=0)` fails the check while `(lower=0, upper=5, value=0)` passes. -/
theorem check_zeroes_iff (lines : List Str) (recs : List OutVal)
    (hrecs : read_outvals lines = some recs) :
    (check_zeroes lines = some false ↔
      ∃ r ∈ recs, PyVal.IsZero r.Value ∧ zeroOutside r.Lower r.Upper)
    ∧ (check_zeroes lines = some true ↔
      ∀ r ∈ recs, ¬(PyVal.IsZero r.Value ∧ zeroOutside r.Lower r.Upper))
    ∧ check_zeroes ["1 <= x = 0 <= 5".toList] = some false
    ∧ check_zeroes ["0 <= x = 0 <= 5".toList] = some true := by
  have hck : check_zeroes lines = some ((recs.map fun r => !zeroFlag r).all id) := by
    unfold check_zeroes
    rw [hrecs]
    rfl
  have hall : ((recs.map fun r => !zeroFlag r).all id = true) ↔
      ∀ r ∈ recs, zeroFlag r = false := by
    simp [List.all_eq_true, Bool.not_eq_true']
  refine ⟨?_, ?_, by decide, by decide⟩
  · rw [hck]
    simp only [Option.some.injEq]
    rw [Bool.eq_false_iff, ne_eq, hall]
    simp only [not_forall]
    constructor
    · rintro ⟨r, hr, hflag⟩
      refine ⟨r, hr, (zeroFlag_iff r).mp ?_⟩
      cases hx : zeroFlag r with
      | false => exact absurd hx hflag
      | true => rfl
    · rintro ⟨r, hr, hprop⟩
      exact ⟨r, hr, by rw [(zeroFlag_iff r).mpr hprop]; exact Bool.noConfusion⟩
  · rw [hck]
    simp only [Option.some.injEq]
    rw [hall]
    constructor
    · intro h r hr hprop
      have := h r hr
      rw [(zeroFlag_iff r).mpr hprop] at this
      exact Bool.noConfusion this
    · intro h r hr
      cases hx : zeroFlag r with
      | false => rfl
      | true => exact absurd ((zeroFlag_iff r).mp hx) (h r hr)

/-- C5 witness: the two concrete Parameter Records of the claim, parsed
from one-line result files; `(1, 5, 0)` fails the check and `(0, 5, 0)`
passes it. -/
theorem check_zeroes_witness :
    check_zeroes ["1 <= x = 0 <= 5".toList] = some false
    ∧ check_zeroes ["0 <= x = 0 <= 5".toList] = some true :=
  ⟨(check_zeroes_iff ["1 <= x = 0 <= 5".toList]
      [⟨['x'], .fin ⟨0, 0⟩, .fin ⟨1, 0⟩, .fin ⟨5, 0⟩⟩] (by decide)).2.2.1,
   (check_zeroes_iff ["0 <= x = 0 <= 5".toList]
      [⟨['x'], .fin ⟨0, 0⟩, .fin ⟨0, 0⟩, .fin ⟨5, 0⟩⟩] (by decide)).2.2.2⟩

/- ### Restart exhaustion (C6) -/

lemma digitRunsGo_skip_nondigits (pre l : Str)
    (h : ∀ c ∈ pre, c.isDigit = false) :
    digitRunsGo [] (pre ++ l) = digitRunsGo [] l := by
  induction pre with
  | nil => rfl
  | cons c pre ih =>
      have hc := h c (by simp)
      simp only [List.cons_append, digitRunsGo, hc]
      simp only [Bool.false_eq_true, if_false, List.isEmpty_nil, if_true,
        List.nil_append]
      exact ih fun x hx => h x (by simp [hx])

lemma digitRunsGo_all (run l : Str) (h : ∀ c ∈ l, c.isDigit = true) :
    digitRunsGo run l =
      if run.isEmpty && l.isEmpty then [] else [run.reverse ++ l] := by
  induction l generalizing run with
  | nil =>
      cases run <;> simp [digitRunsGo]
  | cons c cs ih =>
      have hc := h c (by simp)
      simp only [digitRunsGo, hc, if_true]
      rw [ih (c :: run) fun x hx => h x (by simp [hx])]
      simp [List.reverse_cons, List.append_assoc]

lemma digitRuns_restart_line (dn : Str) (hne : dn ≠ [])
    (hd : ∀ c ∈ dn, c.isDigit = true) :
    digitRuns (":RESTART_MAX=".toList ++ dn) = [dn] := by
  unfold digitRuns
  rw [digitRunsGo_skip_nondigits _ _ (by decide)]
  rw [digitRunsGo_all [] dn hd]
  simp [List.isEmpty_iff, hne]

lemma digit_append_prefix_eq (a : Str) (u : Str) :
    ∀ (b v : Str), (∀ c ∈ a, c.isDigit = true) → (∀ c ∈ b, c.isDigit = true) →
    (a ++ (' ' :: u)) <+: (b ++ (' ' :: v)) → a = b := by
  induction a with
  | nil =>
      intro b v _ hb h
      cases b with
      | nil => rfl
      | cons d b =>
          rw [List.nil_append, List.cons_append, List.cons_prefix_cons] at h
          have hd := hb d (by simp)
          rw [← h.1] at hd
          exact absurd hd (by decide)
  | cons c a ih =>
      intro b v ha hb h
      cases b with
      | nil =>
          rw [List.cons_append, List.nil_append, List.cons_prefix_cons] at h
          have hc := ha c (by simp)
          rw [h.1] at hc
          exact absurd hc (by decide)
      | cons d b =>
          rw [List.cons_append, List.cons_append, List.cons_prefix_cons] at h
          have := ih b v (fun x hx => ha x (by simp [hx]))
            (fun x hx => hb x (by simp [hx])) h.2
          rw [h.1, this]

lemma after_pattern_infix_iff (dm dn : Str)
    (hmd : ∀ c ∈ dm, c.isDigit = true) (hnd : ∀ c ∈ dn, c.isDigit = true) :
    (("After ".toList ++ dn ++ " simulations".toList) <:+:
      ("After ".toList ++ dm ++ " simulations".toList)) ↔ dn = dm := by
  constructor
  · intro hinf
    have hQ : ("After ".toList ++ dm ++ " simulations".toList)
        = 'A' :: ("fter ".toList ++ dm ++ " simulations".toList) := rfl
    have hAp : 'A' ∉ ("fter ".toList ++ dm ++ " simulations".toList) := by
      intro hmem
      rcases List.mem_append.mp hmem with hmem2 | hmem2
      · rcases List.mem_append.mp hmem2 with hmem3 | hmem3
        · exact absurd hmem3 (by decide)
        · exact absurd (hmd 'A' hmem3) (by decide)
      · exact absurd hmem2 (by decide)
    have hAinP : 'A' ∈ ("After ".toList ++ dn ++ " simulations".toList) :=
      List.mem_append.mpr (Or.inl (List.mem_append.mpr (Or.inl (by decide))))
    have hpre : ("After ".toList ++ dn ++ " simulations".toList) <+:
        ("After ".toList ++ dm ++ " simulations".toList) := by
      obtain ⟨s, u, hsu⟩ := hinf
      cases s with
      | nil =>
          rw [List.nil_append] at hsu
          exact ⟨u, hsu⟩
      | cons a s =>
          exfalso
          simp only [List.cons_append] at hsu
          rw [hQ, List.cons.injEq] at hsu
          have hmemA : 'A' ∈ (s ++ ("After ".toList ++ dn ++ " simulations".toList)) ++ u :=
            List.mem_append.mpr (Or.inl (List.mem_append.mpr (Or.inr hAinP)))
          rw [hsu.2] at hmemA
          exact hAp hmemA
    rw [List.append_assoc, List.append_assoc, List.prefix_append_right_inj] at hpre
    exact digit_append_prefix_eq dn "simulations".toList dm "simulations".toList
      hnd hmd hpre
  · intro h
    rw [h]

/-- C6: for a result file whose header states `After {dm} simulations` and
whose metadata line is `:RESTART_MAX={dn}` (both counts written as digit
strings), `check_restarts` returns false exactly when the simulation count
equals the maximum restart count, and true exactly when they differ. -/
theorem check_restarts_iff (dm dn : Str)
    (hm : dm ≠ [] ∧ ∀ c ∈ dm, c.isDigit = true)
    (hn : dn ≠ [] ∧ ∀ c ∈ dn, c.isDigit = true) :
    (check_restarts ["After ".toList ++ dm ++ " simulations".toList,
        ":RESTART_MAX=".toList ++ dn] = some false ↔ dm = dn)
    ∧ (check_restarts ["After ".toList ++ dm ++ " simulations".toList,
        ":RESTART_MAX=".toList ++ dn] = some true ↔ dm ≠ dn) := by
  have hcolon : ':' ∉ ("After ".toList ++ dm ++ " simulations".toList) := by
    intro hmem
    rcases List.mem_append.mp hmem with hmem2 | hmem2
    · rcases List.mem_append.mp hmem2 with hmem3 | hmem3
      · exact absurd hmem3 (by decide)
      · exact absurd (hm.2 ':' hmem3) (by decide)
    · exact absurd hmem2 (by decide)
  have hni : ¬(":RESTART_MAX".toList <:+:
      ("After ".toList ++ dm ++ " simulations".toList)) := by
    intro hinf
    exact hcolon (hinf.subset (by decide))
  have hyi : ":RESTART_MAX".toList <:+: (":RESTART_MAX=".toList ++ dn) :=
    List.IsPrefix.isInfix ⟨'=' :: dn, rfl⟩
  have hfind : findRestarts ["After ".toList ++ dm ++ " simulations".toList,
      ":RESTART_MAX=".toList ++ dn] = some dn := by
    unfold findRestarts
    rw [if_neg hni]
    unfold findRestarts
    rw [if_pos hyi]
    rw [digitRuns_restart_line dn hn.1 hn.2]
    rfl
  have hck : check_restarts ["After ".toList ++ dm ++ " simulations".toList,
      ":RESTART_MAX=".toList ++ dn]
      = some (!(decide (("After ".toList ++ dn ++ " simulations".toList) <:+:
          ("After ".toList ++ dm ++ " simulations".toList)))) := by
    unfold check_restarts
    rw [hfind]
    rfl
  rw [hck]
  have hiff := after_pattern_infix_iff dm dn hm.2 hn.2
  constructor
  · constructor
    · intro h
      have hb := Option.some.inj h
      rw [Bool.not_eq_false', decide_eq_true_eq] at hb
      exact (hiff.mp hb).symm
    · intro h
      rw [decide_eq_true (hiff.mpr h.symm)]
      rfl
  · constructor
    · intro h hdm
      have hb := Option.some.inj h
      rw [Bool.not_eq_true', decide_eq_false_iff_not] at hb
      exact hb (hiff.mpr hdm.symm)
    · intro h
      have hnin : ¬(("After ".toList ++ dn ++ " simulations".toList) <:+:
          ("After ".toList ++ dm ++ " simulations".toList)) := by
        intro hx
        exact h (hiff.mp hx).symm
      rw [decide_eq_false hnin]
      rfl

/-- C6 witness: a header of `After 6 simulations` with `RESTART_MAX=5`
passes the check, and `After 5 simulations` with `RESTART_MAX=5` fails it. -/
theorem check_restarts_witness :
    check_restarts ["After 6 simulations".toList, ":RESTART_MAX=5".toList]
      = some true
    ∧ check_restarts ["After 5 simulations".toList, ":RESTART_MAX=5".toList]
      = some false := by
  have h1 := (check_restarts_iff ['6'] ['5'] (by decide) (by decide)).2
  have h2 := (check_restarts_iff ['5'] ['5'] (by decide) (by decide)).1
  exact ⟨h1.mpr (by decide), h2.mpr rfl⟩
